import Mathlib

/-!
# search-service: query interpretation and cascading relaxation search

A shallow embedding of `search-service/main.go`:

* `normalizeExperience`, `extractKeyword`, `parseQuery` (query interpretation),
* `buildWhere`, `trySearch` (parameterised predicate and one store attempt),
* `searchHandler` (pagination window and the relaxation cascade).

Go strings are Lean strings read as sequences of runes.  Go slices are lists
(a `nil` slice and an empty slice are both `[]`).  Go `int` is the 64-bit
two's-complement integer, embedded in `Int` with explicit wrap-around.
-/

namespace SearchService

/-! ## Go runtime: strings -/

/-- The function `strings.Contains` on rune sequences: `sub` occurs in `s` as a
contiguous block. -/
def containsRunes : List Char → List Char → Bool
  | [], sub => sub.isEmpty
  | c :: s, sub => sub.isPrefixOf (c :: s) || containsRunes s sub

/-- Go `strings.Contains(s, substr)`. -/
def strings_Contains (s substr : String) : Bool :=
  containsRunes s.data substr.data

/-- Go `strings.HasPrefix(s, prefix)`. -/
def strings_HasPrefix (s pre : String) : Bool :=
  pre.data.isPrefixOf s.data

/-- Go `strings.Join(elems, sep)`. -/
def strings_Join (elems : List String) (sep : String) : String :=
  sep.intercalate elems

/-- Number of occurrences of the rune `c` in `s` (Go `strings.Count` for a
one-rune separator). -/
def countRune (c : Char) (s : String) : Nat :=
  s.data.count c

/-- Number of non-overlapping occurrences of `sep` in a rune sequence, scanning
left to right with a fuel that bounds the remaining length. -/
def countSepAux (sep : List Char) : Nat → List Char → Nat
  | 0, _ => 0
  | _ + 1, [] => 0
  | fuel + 1, c :: s =>
    if sep.isPrefixOf (c :: s) then 1 + countSepAux sep fuel ((c :: s).drop sep.length)
    else countSepAux sep fuel s

/-- Go `strings.Count(s, sep)` for a non-empty separator. -/
def strings_Count (s sep : String) : Nat :=
  countSepAux sep.data s.length s.data

/-- Number of pieces `strings.Split(s, sep)` yields for a non-empty separator:
the terms that `sep` joins. -/
def joinedTerms (s sep : String) : Nat :=
  strings_Count s sep + 1

/-! ## Go runtime: machine integers and `strconv.Atoi` -/

/-- Two's-complement wrap-around of a mathematical integer into Go's 64-bit
`int`. -/
def wrapInt64 (x : Int) : Int :=
  (x + 2 ^ 63) % 2 ^ 64 - 2 ^ 63

/-- Decimal value of a non-empty run of ASCII digits, `none` on any other byte
or on the empty run. -/
def parseDigits : List Char → Option Nat
  | [] => none
  | ds =>
    ds.foldl
      (fun acc ch =>
        match acc with
        | none => none
        | some n => if ch.isDigit then some (n * 10 + (ch.toNat - 48)) else none)
      (some 0)

/-- Go `strconv.Atoi` on a 64-bit platform: an optional sign followed by at
least one decimal digit, with a value that fits `int`; `none` stands for a
non-nil error (syntax or range). -/
def Atoi (s : String) : Option Int :=
  match s.data with
  | '-' :: ds =>
    match parseDigits ds with
    | some n => if n ≤ 2 ^ 63 then some (-(n : Int)) else none
    | none => none
  | '+' :: ds =>
    match parseDigits ds with
    | some n => if n < 2 ^ 63 then some (n : Int) else none
    | none => none
  | ds =>
    match parseDigits ds with
    | some n => if n < 2 ^ 63 then some (n : Int) else none
    | none => none

/-! ## Go runtime: case mapping

The tables of package `unicode` are reproduced on the scripts that the
service's patterns and dictionary are written in: ASCII, Latin-1 and the basic
Cyrillic block, together with the few runes outside them whose case mapping or
folding lands on those letters.  Every other rune is left unchanged. -/

/-- Go `unicode.ToLower`. -/
def unicode_ToLower (r : Char) : Char :=
  let n := r.toNat
  if 0x41 ≤ n ∧ n ≤ 0x5A then Char.ofNat (n + 32)
  else if 0xC0 ≤ n ∧ n ≤ 0xDE ∧ n ≠ 0xD7 then Char.ofNat (n + 32)
  else if 0x410 ≤ n ∧ n ≤ 0x42F then Char.ofNat (n + 32)
  else if 0x400 ≤ n ∧ n ≤ 0x40F then Char.ofNat (n + 80)
  else if n = 0x130 then 'i'
  else if n = 0x212A then 'k'
  else r

/-- Go `unicode.ToTitle`. -/
def unicode_ToTitle (r : Char) : Char :=
  let n := r.toNat
  if 0x61 ≤ n ∧ n ≤ 0x7A then Char.ofNat (n - 32)
  else if 0xE0 ≤ n ∧ n ≤ 0xFE ∧ n ≠ 0xF7 then Char.ofNat (n - 32)
  else if 0x430 ≤ n ∧ n ≤ 0x44F then Char.ofNat (n - 32)
  else if 0x450 ≤ n ∧ n ≤ 0x45F then Char.ofNat (n - 80)
  else if n = 0xB5 then Char.ofNat 0x39C
  else if n = 0xFF then Char.ofNat 0x178
  else if n = 0x17F then 'S'
  else r

/-- Go `unicode.IsSpace`. -/
def unicode_IsSpace (r : Char) : Bool :=
  let n := r.toNat
  (0x09 ≤ n && n ≤ 0x0D) || n == 0x20 || n == 0x85 || n == 0xA0 || n == 0x1680
    || (0x2000 ≤ n && n ≤ 0x200A) || n == 0x2028 || n == 0x2029 || n == 0x202F
    || n == 0x205F || n == 0x3000

/-- Representative of the simple case-folding orbit of a rune (the orbit that
`unicode.SimpleFold` walks): two runes match each other under the flag `(?i)`
exactly when their representatives agree. -/
def foldKey (r : Char) : Char :=
  let n := r.toNat
  if n = 0x130 then r
  else if n = 0x17F then 's'
  else if n = 0x1C80 then 'в'
  else if n = 0x1C81 then 'д'
  else if n = 0x1C82 then 'о'
  else if n = 0x1C83 then 'с'
  else if n = 0x1C84 then 'т'
  else if n = 0x1C85 then 'т'
  else if n = 0x1C86 then 'ъ'
  else unicode_ToLower r

/-- Go `strings.ToLower(s)`. -/
def strings_ToLower (s : String) : String :=
  String.mk (s.data.map unicode_ToLower)

/-- The helper `isSeparator` of Go `strings.Title`: ASCII letters, digits and
the underscore are no separators, every other ASCII rune is one; beyond ASCII
only spaces are. -/
def isSeparator (r : Char) : Bool :=
  if r.toNat ≤ 0x7F then !(r.isAlphanum || r == '_') else unicode_IsSpace r

/-- The mapping loop of `strings.Title`: a rune is title-cased when the rune
before it is a separator. -/
def titleRunes : Char → List Char → List Char
  | _, [] => []
  | prev, r :: rs =>
    (if isSeparator prev then unicode_ToTitle r else r) :: titleRunes r rs

/-- Go `strings.Title(s)`. -/
def strings_Title (s : String) : String :=
  String.mk (titleRunes ' ' s.data)

/-! ## Go runtime: regular expressions

The fragment of RE2 syntax that `main.go` uses, all of it under the flag
`(?i)`: literals, bracket classes of single runes, `\s`, `\b`, concatenation,
alternation and the greedy star.  Matching follows Go's leftmost-first rule:
`Regex.run` lists the positions a match can end at in the order a backtracking
search prefers them. -/

/-- Regular expression syntax. -/
inductive Regex where
  | fail : Regex
  | empty : Regex
  | lit : Char → Regex
  | cls : List Char → Regex
  | space : Regex
  | wordBoundary : Regex
  | cat : Regex → Regex → Regex
  | alt : Regex → Regex → Regex
  | star : Regex → Regex

/-- A position in the subject text: the rune just before it, if any, and the
runes from it on. -/
structure Pos where
  before : Option Char
  rest : List Char
  deriving DecidableEq, Repr

/-- The class `\w` of RE2: ASCII letters, digits and the underscore. -/
def isWordRune (r : Char) : Bool :=
  r.isAlphanum || r == '_'

/-- Whether the optional rune next to a position is a word rune (the ends of
the text are not). -/
def isWordAt : Option Char → Bool
  | none => false
  | some r => isWordRune r

/-- The class `\s` of RE2: `[\t\n\f\r ]`. -/
def isSpaceRune (r : Char) : Bool :=
  r == '\t' || r == '\n' || r == Char.ofNat 0x0C || r == '\r' || r == ' '

/-- Consume one rune satisfying `ok`. -/
def Pos.eat (ok : Char → Bool) (p : Pos) : List Pos :=
  match p.rest with
  | [] => []
  | r :: rs => if ok r then [⟨some r, rs⟩] else []

/-- Greedy iteration of `step`: one more round first, then stopping here.  The
fuel bounds the number of rounds by the remaining length, since only rounds
that consume text are repeated. -/
def starRun (step : Pos → List Pos) : Nat → Pos → List Pos
  | 0, p => [p]
  | fuel + 1, p =>
    (((step p).filter fun q => q.rest.length < p.rest.length).flatMap (starRun step fuel))
      ++ [p]

/-- The positions where a match of the expression starting at `p` can end, in
order of preference. -/
def Regex.run : Regex → Pos → List Pos
  | .fail, _ => []
  | .empty, p => [p]
  | .lit c, p => p.eat fun r => foldKey r == foldKey c
  | .cls cs, p => p.eat fun r => cs.any fun c => foldKey r == foldKey c
  | .space, p => p.eat isSpaceRune
  | .wordBoundary, p => if isWordAt p.before != isWordAt p.rest.head? then [p] else []
  | .cat a b, p => (a.run p).flatMap fun q => b.run q
  | .alt a b, p => a.run p ++ b.run p
  | .star a, p => starRun (fun q => a.run q) p.rest.length p

/-- Every position of a text, left to right, the end included. -/
def positionsFrom : Option Char → List Char → List Pos
  | prev, [] => [⟨prev, []⟩]
  | prev, r :: rs => ⟨prev, r :: rs⟩ :: positionsFrom (some r) rs

/-- Go `re.MatchString(s)`: the expression matches somewhere in `s`. -/
def Regex.MatchString (re : Regex) (s : String) : Bool :=
  (positionsFrom none s.data).any fun p => !(re.run p).isEmpty

/-- The element `[0]` of Go `re.FindStringSubmatch(s)`: the text of the
leftmost match, the preferred one at that position; `none` when the result is
`nil`. -/
def Regex.FindString (re : Regex) (s : String) : Option String :=
  (positionsFrom none s.data).findSome? fun p =>
    match re.run p with
    | [] => none
    | q :: _ => some (String.mk (p.rest.take (p.rest.length - q.rest.length)))

/-- A literal string. -/
def Regex.str (s : String) : Regex :=
  s.data.foldr (fun c r => Regex.cat (Regex.lit c) r) Regex.empty

/-- Concatenation of a sequence of expressions. -/
def Regex.seq (rs : List Regex) : Regex :=
  rs.foldr Regex.cat Regex.empty

/-- Alternation `r₁|r₂|…`, earlier alternatives preferred. -/
def Regex.alts (rs : List Regex) : Regex :=
  rs.foldr Regex.alt Regex.fail

/-- The expression `\s*`. -/
def Regex.ws : Regex := Regex.star Regex.space

/-! ## Data model -/

/-- The `Vacancy` struct of `main.go`. -/
structure Vacancy where
  ID : Int
  City : String
  Name : String
  RequiredExperience : String
  Description : String
  SalaryFrom : Int
  SalaryTo : Int
  PublishedAt : String
  Status : String
  Skills : String
  deriving DecidableEq, Repr

/-- The `Synonyms` map (canonical keyword to trigger phrases), presented as the
sequence of entries in the order a `range` statement visits them.  Go leaves
that order unspecified, so every permutation of the entries is a possible
presentation of one and the same map. -/
abbrev Synonyms := List (String × List String)

/-- A Go map has pairwise distinct keys. -/
def Synonyms.WellFormed (syns : Synonyms) : Prop :=
  (syns.map Prod.fst).Nodup

instance (syns : Synonyms) : Decidable (Synonyms.WellFormed syns) :=
  inferInstanceAs (Decidable ((syns.map Prod.fst).Nodup))

/-- The outcome of `db.Query(sqlStr, args...)`: `none` is a non-nil error,
`some rows` a result set whose rows either scan into a `Vacancy` (`some v`) or
make `rows.Scan` fail (`none`). -/
abbrev DB := String → List String → Option (List (Option Vacancy))

/-! ## Query interpretation -/

/-- The pattern `cityRe`:
`(?i)\b(москв[ауе]|санкт-петербург|минск|екатеринбург|новосибирск|казань|самара|ростов|владивосток|челябинск|нижний новгород|уфа|краснодар)\b`. -/
def cityRe : Regex :=
  Regex.seq [Regex.wordBoundary,
    Regex.alts [
      Regex.seq [Regex.str "москв", Regex.cls ['а', 'у', 'е']],
      Regex.str "санкт-петербург", Regex.str "минск", Regex.str "екатеринбург",
      Regex.str "новосибирск", Regex.str "казань", Regex.str "самара",
      Regex.str "ростов", Regex.str "владивосток", Regex.str "челябинск",
      Regex.str "нижний новгород", Regex.str "уфа", Regex.str "краснодар"],
    Regex.wordBoundary]

/-- First pattern of `normalizeExperience`:
`(?i)\b(без\s*опыт|стажер|джун|junior|начинающий|0\s*лет)\b`. -/
def noExperienceRe : Regex :=
  Regex.seq [Regex.wordBoundary,
    Regex.alts [
      Regex.seq [Regex.str "без", Regex.ws, Regex.str "опыт"],
      Regex.str "стажер", Regex.str "джун", Regex.str "junior", Regex.str "начинающий",
      Regex.seq [Regex.str "0", Regex.ws, Regex.str "лет"]],
    Regex.wordBoundary]

/-- Second pattern of `normalizeExperience`:
`(?i)\b(1\s*-\s*3|от\s*1\s*до\s*3|мидл|middle|1\s*год|2\s*года|3\s*года)\b`. -/
def oneToThreeRe : Regex :=
  Regex.seq [Regex.wordBoundary,
    Regex.alts [
      Regex.seq [Regex.str "1", Regex.ws, Regex.str "-", Regex.ws, Regex.str "3"],
      Regex.seq [Regex.str "от", Regex.ws, Regex.str "1", Regex.ws, Regex.str "до",
        Regex.ws, Regex.str "3"],
      Regex.str "мидл", Regex.str "middle",
      Regex.seq [Regex.str "1", Regex.ws, Regex.str "год"],
      Regex.seq [Regex.str "2", Regex.ws, Regex.str "года"],
      Regex.seq [Regex.str "3", Regex.ws, Regex.str "года"]],
    Regex.wordBoundary]

/-- Third pattern of `normalizeExperience`:
`(?i)\b(3\s*-\s*6|от\s*3\s*до\s*6|сеньор|senior|4\s*года|5\s*лет|6\s*лет)\b`. -/
def threeToSixRe : Regex :=
  Regex.seq [Regex.wordBoundary,
    Regex.alts [
      Regex.seq [Regex.str "3", Regex.ws, Regex.str "-", Regex.ws, Regex.str "6"],
      Regex.seq [Regex.str "от", Regex.ws, Regex.str "3", Regex.ws, Regex.str "до",
        Regex.ws, Regex.str "6"],
      Regex.str "сеньор", Regex.str "senior",
      Regex.seq [Regex.str "4", Regex.ws, Regex.str "года"],
      Regex.seq [Regex.str "5", Regex.ws, Regex.str "лет"],
      Regex.seq [Regex.str "6", Regex.ws, Regex.str "лет"]],
    Regex.wordBoundary]

/-- Fourth pattern of `normalizeExperience`:
`(?i)\b(более\s*6|6\+\s*лет|lead|техлид|архитектор)\b`. -/
def moreThanSixRe : Regex :=
  Regex.seq [Regex.wordBoundary,
    Regex.alts [
      Regex.seq [Regex.str "более", Regex.ws, Regex.str "6"],
      Regex.seq [Regex.str "6+", Regex.ws, Regex.str "лет"],
      Regex.str "lead", Regex.str "техлид", Regex.str "архитектор"],
    Regex.wordBoundary]

/-- Go `normalizeExperience(query)`. -/
def normalizeExperience (query : String) : String :=
  let q := strings_ToLower query
  if noExperienceRe.MatchString q then "Нет опыта"
  else if oneToThreeRe.MatchString q then "От года до трех лет"
  else if threeToSixRe.MatchString q then "От 3 до 6 лет"
  else if moreThanSixRe.MatchString q then "Более 6 лет"
  else ""

/-- The inner loop of `extractKeyword`: some variant occurs in `q`. -/
def anyVariant (q : String) : List String → Bool
  | [] => false
  | v :: variants => if strings_Contains q v then true else anyVariant q variants

/-- The outer loop of `extractKeyword` over the entries in iteration order. -/
def firstCanonical (q : String) : Synonyms → String
  | [] => ""
  | (canonical, variants) :: syns =>
    if anyVariant q variants then canonical else firstCanonical q syns

/-- Go `extractKeyword(query, syns)`, `syns` given in iteration order. -/
def extractKeyword (query : String) (syns : Synonyms) : String :=
  let q := strings_ToLower query
  firstCanonical q syns

/-- Go `parseQuery(q)`; the package variable `synonyms` is a parameter. -/
def parseQuery (synonyms : Synonyms) (q : String) : String × String × String :=
  let city :=
    match cityRe.FindString q with
    | some m =>
      let city := strings_Title (strings_ToLower m)
      if strings_HasPrefix (strings_ToLower city) "москв" then "Москва"
      else if strings_Contains (strings_ToLower city) "санкт" then "Санкт-Петербург"
      else city
    | none => ""
  let keyword := extractKeyword q synonyms
  let expHH := normalizeExperience q
  (city, keyword, expHH)

/-! ## buildWhere -/

/-- The `where` slice of `buildWhere` just before it is joined. -/
def buildWhereTerms (city keyword expHH : String) : List String :=
  let terms := ["1 = 1"]
  let terms := if city ≠ "" then terms ++ ["city = ?"] else terms
  let terms :=
    if keyword ≠ "" then
      terms ++ ["(LOWER(name) LIKE ? OR LOWER(skills) LIKE ? OR LOWER(description) LIKE ?)"]
    else terms
  let terms := if expHH ≠ "" then terms ++ ["required_experience = ?"] else terms
  terms

/-- The `args` slice of `buildWhere`. -/
def buildWhereArgs (city keyword expHH : String) : List String :=
  let args : List String := []
  let args := if city ≠ "" then args ++ [city] else args
  let args :=
    if keyword ≠ "" then
      let kw := "%" ++ keyword ++ "%"
      args ++ [kw, kw, kw]
    else args
  let args := if expHH ≠ "" then args ++ [expHH] else args
  args

/-- Go `buildWhere(city, keyword, expHH)`: the expression text and the bound
arguments. -/
def buildWhere (city keyword expHH : String) : String × List String :=
  (strings_Join (buildWhereTerms city keyword expHH) " AND ",
   buildWhereArgs city keyword expHH)

/-! ## trySearch -/

/-- The `fmt.Sprintf` call of `trySearch`: the statement text around the
expression, the limit and the offset (both printed with `%d`). -/
def sprintfQuery (whereStr : String) (limit offset : Int) : String :=
  "\n\t\tSELECT id, city, name, required_experience, description, salary_from, salary_to,"
    ++ "\n\t\t       toString(published_at) as published_at, status, skills"
    ++ "\n\t\tFROM vacancies"
    ++ "\n\t\tWHERE " ++ whereStr
    ++ "\n\t\tORDER BY published_at DESC"
    ++ "\n\t\tLIMIT " ++ toString limit ++ " OFFSET " ++ toString offset

/-- The row loop of `trySearch`: a row that fails to scan is skipped, every
other row is appended in order. -/
def scanRows : List (Option Vacancy) → List Vacancy
  | [] => []
  | none :: rows => scanRows rows
  | some v :: rows => v :: scanRows rows

/-- Go `trySearch(db, city, keyword, expHH, offset, limit)`: the scanned rows
(`nil` on a query error) and the statement text. -/
def trySearch (db : DB) (city keyword expHH : String) (offset limit : Int) :
    List Vacancy × String :=
  let whereStr := (buildWhere city keyword expHH).1
  let args := (buildWhere city keyword expHH).2
  let sqlStr := sprintfQuery whereStr limit offset
  match db sqlStr args with
  | none => ([], sqlStr)
  | some rows => (scanRows rows, sqlStr)

/-! ## searchHandler -/

/-- One invocation of `trySearch` as seen by the store: the filters and the
pagination window it was given. -/
structure Call where
  city : String
  keyword : String
  expHH : String
  offset : Int
  limit : Int
  deriving DecidableEq, Repr

/-- The local state of `searchHandler` while the cascade runs: the
invocations of `trySearch` so far (oldest first) and the variables `results`
and `lastSQL`. -/
structure Cascade where
  calls : List Call
  results : List Vacancy
  lastSQL : String

/-- The statement `results, lastSQL = trySearch(db, city, keyword, expHH,
offset, limit)`, recording the invocation. -/
def Cascade.search (st : Cascade) (db : DB) (city keyword expHH : String)
    (offset limit : Int) : Cascade :=
  { calls := st.calls ++ [⟨city, keyword, expHH, offset, limit⟩]
    results := (trySearch db city keyword expHH offset limit).1
    lastSQL := (trySearch db city keyword expHH offset limit).2 }

/-- The test `len(results) == limit`. -/
def Cascade.full (st : Cascade) (limit : Int) : Bool :=
  (st.results.length : Int) == limit

/-- Attempt 5 of `searchHandler`: no filters; control then reaches `respond`. -/
def attempt5 (db : DB) (offset limit : Int) (st : Cascade) : Cascade :=
  st.search db "" "" "" offset limit

/-- Attempt 4 of `searchHandler`: the keyword alone, tried when it is not
empty; a full page jumps to `respond`. -/
def attempt4 (db : DB) (keyword : String) (offset limit : Int) (st : Cascade) : Cascade :=
  if keyword ≠ "" then
    let st := st.search db "" keyword "" offset limit
    if st.full limit then st else attempt5 db offset limit st
  else attempt5 db offset limit st

/-- Attempt 3 of `searchHandler`: the city dropped, tried when the city is not
empty; a full page jumps to `respond`. -/
def attempt3 (db : DB) (city keyword expHH : String) (offset limit : Int) (st : Cascade) :
    Cascade :=
  if city ≠ "" then
    let st := st.search db "" keyword expHH offset limit
    if st.full limit then st else attempt4 db keyword offset limit st
  else attempt4 db keyword offset limit st

/-- Attempt 2 of `searchHandler`: the experience dropped, tried when the
experience is not empty; a full page jumps to `respond`. -/
def attempt2 (db : DB) (city keyword expHH : String) (offset limit : Int) (st : Cascade) :
    Cascade :=
  if expHH ≠ "" then
    let st := st.search db city keyword "" offset limit
    if st.full limit then st else attempt3 db city keyword expHH offset limit st
  else attempt3 db city keyword expHH offset limit st

/-- The cascade of `searchHandler` (from the declaration of `results` to the
label `respond`), started on the parsed filters. -/
def cascade (db : DB) (city keyword expHH : String) (offset limit : Int) : Cascade :=
  let st : Cascade := { calls := [], results := [], lastSQL := "" }
  let st := st.search db city keyword expHH offset limit
  if st.full limit then st else attempt2 db city keyword expHH offset limit st

/-- The variable `page` of `searchHandler`, from the raw `page` parameter (the
empty string when the parameter is absent). -/
def parsePage (pageStr : String) : Int :=
  if pageStr ≠ "" then
    match Atoi pageStr with
    | some p => if p ≥ 0 then p else 0
    | none => 0
  else 0

/-- The variable `offset` of `searchHandler`: `page * 10` in 64-bit
arithmetic. -/
def pageOffset (pageStr : String) : Int :=
  wrapInt64 (parsePage pageStr * 10)

/-- What `searchHandler` writes: the error of `http.Error` with its status, or
the slice handed to the JSON encoder. -/
inductive Response where
  | error (status : Nat) (msg : String)
  | ok (results : List Vacancy)

/-- One run of the handler: the invocations of `trySearch` in order, and the
response. -/
structure HandlerRun where
  calls : List Call
  response : Response

/-- Go `searchHandler(db)` applied to a request with raw parameters `q` and
`page` (each the empty string when absent); the package variable `synonyms` is
a parameter. -/
def searchHandler (db : DB) (synonyms : Synonyms) (query pageStr : String) : HandlerRun :=
  let offset := pageOffset pageStr
  let limit : Int := 10
  if query = "" then
    { calls := [], response := Response.error 400 "missing 'q' param" }
  else
    let parsed := parseQuery synonyms query
    let st := cascade db parsed.1 parsed.2.1 parsed.2.2 offset limit
    { calls := st.calls, response := Response.ok st.results }

/-! ## The relaxation ladder of the specification -/

/-- A filter triple `(city, keyword, experience)`. -/
abbrev Filters := String × String × String

/-- The ladder of the specification for the parsed filters: attempt 1 always,
attempt 2 when the experience is non-empty, attempt 3 when the city is
non-empty, attempt 4 when the keyword is non-empty, attempt 5 always. -/
def ladder (city keyword expHH : String) : List Filters :=
  [(city, keyword, expHH)]
    ++ (if expHH ≠ "" then [(city, keyword, "")] else [])
    ++ (if city ≠ "" then [("", keyword, expHH)] else [])
    ++ (if keyword ≠ "" then [("", keyword, "")] else [])
    ++ [("", "", "")]

/-- The prefix of a list that ends at its first element satisfying `stop`, or
the whole list when no element does. -/
def takeThrough {α : Type} (stop : α → Bool) : List α → List α
  | [] => []
  | a :: as => if stop a then [a] else a :: takeThrough stop as

/-- The store as the cascade sees it for a fixed pagination window: the result
list of one attempt as a function of the filter triple. -/
def storeResult (db : DB) (offset limit : Int) (f : Filters) : List Vacancy :=
  (trySearch db f.1 f.2.1 f.2.2 offset limit).1

/-- The filter triple of an invocation. -/
def Call.filters (c : Call) : Filters :=
  (c.city, c.keyword, c.expHH)

/-- The store in which every failing query is replaced by one that succeeds
with no rows. -/
def healed (db : DB) : DB :=
  fun sqlStr args =>
    match db sqlStr args with
    | none => some []
    | some rows => some rows

/-- The test `len(results) == limit` on the store's answer for a filter
triple. -/
def fullPage (db : DB) (offset limit : Int) (f : Filters) : Bool :=
  ((storeResult db offset limit f).length : Int) == limit

/-- The ladder of the specification when no keyword was extracted: the
keyword-only attempt 4 is absent. -/
def ladderWithoutKeyword (city expHH : String) : List Filters :=
  [(city, "", expHH)]
    ++ (if expHH ≠ "" then [(city, "", "")] else [])
    ++ (if city ≠ "" then [("", "", expHH)] else [])
    ++ [("", "", "")]

/-- A trigger phrase occurs in a text when letter case is ignored: the
lower-cased phrase is a substring of the lower-cased text. -/
def occursIgnoringCase (phrase text : String) : Bool :=
  strings_Contains (strings_ToLower text) (strings_ToLower phrase)

/-! ## Specification-side vocabulary for `buildWhere` -/

/-- The number of non-empty fields of a filter triple, the size of the set the
specification calls `F`. -/
def nonEmptyFields (city keyword expHH : String) : Nat :=
  (if city ≠ "" then 1 else 0) + (if keyword ≠ "" then 1 else 0)
    + (if expHH ≠ "" then 1 else 0)

/-- The filter conjuncts the specification lists, in its order (city, keyword,
experience), each with the values bound to its placeholders: equality on the
city, the three substring tests on name, skills and description, equality on
the experience label. -/
def boundConjuncts (city keyword expHH : String) : List (String × List String) :=
  (if city ≠ "" then [("city = ?", [city])] else [])
    ++ (if keyword ≠ "" then
          [("(LOWER(name) LIKE ? OR LOWER(skills) LIKE ? OR LOWER(description) LIKE ?)",
            ["%" ++ keyword ++ "%", "%" ++ keyword ++ "%", "%" ++ keyword ++ "%"])]
        else [])
    ++ (if expHH ≠ "" then [("required_experience = ?", [expHH])] else [])

/-! ## Lemmas on `buildWhere` -/

/-- The expression text is determined by which fields are empty. -/
theorem buildWhere_expr_cases (city keyword expHH : String) :
    (buildWhere city keyword expHH).1
      = strings_Join
          (["1 = 1"] ++ (if city ≠ "" then ["city = ?"] else [])
            ++ (if keyword ≠ "" then
                  ["(LOWER(name) LIKE ? OR LOWER(skills) LIKE ? OR LOWER(description) LIKE ?)"]
                else [])
            ++ (if expHH ≠ "" then ["required_experience = ?"] else []))
          " AND " := by
  by_cases hc : city = "" <;> by_cases hk : keyword = "" <;> by_cases he : expHH = "" <;>
    simp [buildWhere, buildWhereTerms, hc, hk, he]

/-- The argument list, segment by segment. -/
theorem buildWhere_args_cases (city keyword expHH : String) :
    (buildWhere city keyword expHH).2
      = (if city ≠ "" then [city] else [])
          ++ (if keyword ≠ "" then
                ["%" ++ keyword ++ "%", "%" ++ keyword ++ "%", "%" ++ keyword ++ "%"]
              else [])
          ++ (if expHH ≠ "" then [expHH] else []) := by
  by_cases hc : city = "" <;> by_cases hk : keyword = "" <;> by_cases he : expHH = "" <;>
    simp [buildWhere, buildWhereArgs, hc, hk, he]

/-- The expression text of two triples with the same empty fields is the same. -/
theorem buildWhere_expr_congr (c₁ k₁ e₁ c₂ k₂ e₂ : String)
    (hc : c₁ = "" ↔ c₂ = "") (hk : k₁ = "" ↔ k₂ = "") (he : e₁ = "" ↔ e₂ = "") :
    (buildWhere c₁ k₁ e₁).1 = (buildWhere c₂ k₂ e₂).1 := by
  rw [buildWhere_expr_cases, buildWhere_expr_cases]
  simp only [ne_eq, hc, hk, he]

/-- The statement text of `trySearch` does not depend on the store. -/
theorem trySearch_sql (db : DB) (city keyword expHH : String) (offset limit : Int) :
    (trySearch db city keyword expHH offset limit).2
      = sprintfQuery (buildWhere city keyword expHH).1 limit offset := by
  cases h : db (sprintfQuery (buildWhere city keyword expHH).1 limit offset)
      (buildWhere city keyword expHH).2 <;> simp [trySearch, h]

/-! ## Claims on `buildWhere` and `trySearch` -/

/-- C4, as stated, fails: with the city as the only non-empty field the set
`F` has one element, yet the expression `1 = 1 AND city = ?` consists of two
terms joined by `AND`. -/
theorem buildWhere_conjunct_count_counterexample :
    (buildWhere "Минск" "" "").1 = "1 = 1 AND city = ?"
      ∧ nonEmptyFields "Минск" "" "" = 1
      ∧ joinedTerms (buildWhere "Минск" "" "").1 " AND " = 2
      ∧ joinedTerms (buildWhere "Минск" "" "").1 " AND " ≠ nonEmptyFields "Минск" "" "" := by
  decide

/-- C4, amended: on the empty triple `buildWhere` returns the always-true
expression `1 = 1` with no arguments; on every triple the expression is that
constant term followed by exactly one conjunct per non-empty field, hence
`|F| + 1` terms joined by `AND`. -/
theorem buildWhere_conjunct_count (city keyword expHH : String) :
    buildWhere "" "" "" = ("1 = 1", [])
      ∧ (buildWhere city keyword expHH).1
          = strings_Join ("1 = 1" :: (boundConjuncts city keyword expHH).map Prod.fst) " AND "
      ∧ (boundConjuncts city keyword expHH).length = nonEmptyFields city keyword expHH
      ∧ joinedTerms (buildWhere city keyword expHH).1 " AND "
          = nonEmptyFields city keyword expHH + 1 := by
  refine ⟨by decide, ?_, ?_, ?_⟩
  · rw [buildWhere_expr_cases]
    by_cases hc : city = "" <;> by_cases hk : keyword = "" <;> by_cases he : expHH = "" <;>
      simp [boundConjuncts, hc, hk, he]
  · by_cases hc : city = "" <;> by_cases hk : keyword = "" <;> by_cases he : expHH = "" <;>
      simp [boundConjuncts, nonEmptyFields, hc, hk, he]
  · rw [buildWhere_expr_cases]
    by_cases hc : city = "" <;> by_cases hk : keyword = "" <;> by_cases he : expHH = "" <;>
      simp only [nonEmptyFields, hc, hk, he, ne_eq, not_true_eq_false, not_false_eq_true,
        if_true, if_false] <;> decide

/-- C5: the expression text of `buildWhere` is the same for any two filter
triples that agree on which fields are empty, and so is the statement text
that `trySearch` builds for the same limit and offset, whatever the store. -/
theorem buildWhere_text_independent_of_values (c₁ k₁ e₁ c₂ k₂ e₂ : String)
    (hc : c₁ = "" ↔ c₂ = "") (hk : k₁ = "" ↔ k₂ = "") (he : e₁ = "" ↔ e₂ = "") :
    (buildWhere c₁ k₁ e₁).1 = (buildWhere c₂ k₂ e₂).1
      ∧ ∀ (db₁ db₂ : DB) (offset limit : Int),
          (trySearch db₁ c₁ k₁ e₁ offset limit).2 = (trySearch db₂ c₂ k₂ e₂ offset limit).2 := by
  refine ⟨buildWhere_expr_congr c₁ k₁ e₁ c₂ k₂ e₂ hc hk he, ?_⟩
  intro db₁ db₂ offset limit
  rw [trySearch_sql, trySearch_sql, buildWhere_expr_congr c₁ k₁ e₁ c₂ k₂ e₂ hc hk he]

/-- Witness for C5: a plain keyword and a hostile one yield the same text. -/
theorem buildWhere_text_independent_of_values_witness :
    (("Минск" : String) = "" ↔ ("Уфа" : String) = "")
      ∧ (("java" : String) = "" ↔ ("%) OR (1 = 1" : String) = "")
      ∧ (("" : String) = "" ↔ ("" : String) = "")
      ∧ ((buildWhere "Минск" "java" "").1 = (buildWhere "Уфа" "%) OR (1 = 1" "").1
          ∧ ∀ (db₁ db₂ : DB) (offset limit : Int),
              (trySearch db₁ "Минск" "java" "" offset limit).2
                = (trySearch db₂ "Уфа" "%) OR (1 = 1" "" offset limit).2) :=
  ⟨by decide, by decide, by decide,
    buildWhere_text_independent_of_values "Минск" "java" "" "Уфа" "%) OR (1 = 1" ""
      (by decide) (by decide) (by decide)⟩

/-- C6: the expression of `buildWhere` is `1 = 1` followed by the conjuncts
of the non-empty fields in the order city, keyword, experience; the argument
list is the concatenation, in that same order, of the values bound by each
conjunct (the city; the wildcard-wrapped keyword three times; the experience
label); each conjunct has as many placeholders as values bound to it, and the
whole expression as many placeholders as there are arguments. -/
theorem buildWhere_placeholders_match_args (city keyword expHH : String) :
    (buildWhere city keyword expHH).1
        = strings_Join ("1 = 1" :: (boundConjuncts city keyword expHH).map Prod.fst) " AND "
      ∧ (buildWhere city keyword expHH).2
          = ((boundConjuncts city keyword expHH).map Prod.snd).flatten
      ∧ (buildWhere city keyword expHH).2
          = (if city ≠ "" then [city] else [])
              ++ (if keyword ≠ "" then
                    ["%" ++ keyword ++ "%", "%" ++ keyword ++ "%", "%" ++ keyword ++ "%"]
                  else [])
              ++ (if expHH ≠ "" then [expHH] else [])
      ∧ (∀ t ∈ boundConjuncts city keyword expHH, countRune '?' t.1 = t.2.length)
      ∧ countRune '?' (buildWhere city keyword expHH).1
          = (buildWhere city keyword expHH).2.length := by
  refine ⟨?_, ?_, buildWhere_args_cases city keyword expHH, ?_, ?_⟩
  · rw [buildWhere_expr_cases]
    by_cases hc : city = "" <;> by_cases hk : keyword = "" <;> by_cases he : expHH = "" <;>
      simp [boundConjuncts, hc, hk, he]
  · rw [buildWhere_args_cases]
    by_cases hc : city = "" <;> by_cases hk : keyword = "" <;> by_cases he : expHH = "" <;>
      simp [boundConjuncts, hc, hk, he]
  · intro t ht
    have h1 : countRune '?' "city = ?" = 1 := by decide
    have h2 : countRune '?'
        "(LOWER(name) LIKE ? OR LOWER(skills) LIKE ? OR LOWER(description) LIKE ?)" = 3 := by
      decide
    unfold boundConjuncts at ht
    rw [List.mem_append, List.mem_append] at ht
    rcases ht with (ht | ht) | ht <;> split_ifs at ht <;>
      first
      | exact absurd ht (List.not_mem_nil _)
      | (rw [List.mem_singleton] at ht; subst ht; first | exact h1 | exact h2)
  · rw [buildWhere_expr_cases, buildWhere_args_cases]
    by_cases hc : city = "" <;> by_cases hk : keyword = "" <;> by_cases he : expHH = "" <;>
      simp only [hc, hk, he, ne_eq, not_true_eq_false, not_false_eq_true,
        if_true, if_false, List.append_nil, List.nil_append, List.length_nil,
        List.length_cons, List.length_append, List.singleton_append, List.cons_append] <;>
      decide

/-! ## Lemmas on the cascade -/

/-- Full pages for the window of ten, in terms of the number of elements. -/
theorem fullPage_ten (db : DB) (offset : Int) (f : Filters) :
    fullPage db offset 10 f = true ↔ (storeResult db offset 10 f).length = 10 := by
  simp only [fullPage, beq_iff_eq]
  omega

/-- The attempts of the cascade are the ladder cut after the first full page. -/
theorem cascade_calls_eq (db : DB) (city keyword expHH : String) (offset limit : Int) :
    (cascade db city keyword expHH offset limit).calls.map Call.filters
      = takeThrough (fullPage db offset limit) (ladder city keyword expHH) := by
  by_cases hc : city = "" <;> by_cases hk : keyword = "" <;> by_cases he : expHH = "" <;>
    simp only [cascade, attempt2, attempt3, attempt4, attempt5, Cascade.search, Cascade.full,
      ladder, takeThrough, fullPage, storeResult, Call.filters, hc, hk, he, ne_eq,
      not_true_eq_false, not_false_eq_true, if_true, if_false, List.nil_append,
      List.append_nil, List.cons_append, List.singleton_append] <;>
    split_ifs <;> simp_all [Call.filters]

/-- The variable `results` at `respond` holds the answer to the last attempt. -/
theorem cascade_results_last (db : DB) (city keyword expHH : String) (offset limit : Int) :
    ((cascade db city keyword expHH offset limit).calls.map Call.filters).getLast?
      = some ((cascade db city keyword expHH offset limit).calls.map Call.filters).getLast?.get!
    ∧ (cascade db city keyword expHH offset limit).results
      = storeResult db offset limit
          (((cascade db city keyword expHH offset limit).calls.map Call.filters).getLast?.getD
            ("", "", "")) := by
  by_cases hc : city = "" <;> by_cases hk : keyword = "" <;> by_cases he : expHH = "" <;>
    simp only [cascade, attempt2, attempt3, attempt4, attempt5, Cascade.search, Cascade.full,
      storeResult, Call.filters, hc, hk, he, ne_eq,
      not_true_eq_false, not_false_eq_true, if_true, if_false, List.nil_append,
      List.append_nil, List.cons_append, List.singleton_append] <;>
    split_ifs <;> simp [Call.filters]

/-- Every attempt of the cascade is given the same pagination window. -/
theorem cascade_calls_window (db : DB) (city keyword expHH : String) (offset limit : Int) :
    ∀ c ∈ (cascade db city keyword expHH offset limit).calls,
      c.offset = offset ∧ c.limit = limit := by
  by_cases hc : city = "" <;> by_cases hk : keyword = "" <;> by_cases he : expHH = "" <;>
    simp only [cascade, attempt2, attempt3, attempt4, attempt5, Cascade.search, Cascade.full,
      hc, hk, he, ne_eq,
      not_true_eq_false, not_false_eq_true, if_true, if_false, List.nil_append,
      List.append_nil, List.cons_append, List.singleton_append] <;>
    split_ifs <;> simp

/-- The prefix cut by `takeThrough` is a prefix. -/
theorem takeThrough_initial {α : Type} (stop : α → Bool) (l : List α) :
    takeThrough stop l <+: l := by
  induction l with
  | nil => exact List.prefix_refl _
  | cons a as ih =>
    unfold takeThrough
    split_ifs
    · exact ⟨as, rfl⟩
    · exact (List.prefix_cons_inj a).2 ih

/-- Shape of the prefix cut by `takeThrough`: no element before the last one
stops, and the last one stops unless the whole list was taken. -/
theorem takeThrough_shape {α : Type} (stop : α → Bool) (l : List α) (hl : l ≠ []) :
    ∃ init last, takeThrough stop l = init ++ [last]
      ∧ (∀ x ∈ init, stop x = false)
      ∧ (stop last = true ∨ takeThrough stop l = l) := by
  induction l with
  | nil => exact absurd rfl hl
  | cons a as ih =>
    by_cases ha : stop a = true
    · exact ⟨[], a, by simp [takeThrough, ha], by simp, Or.inl ha⟩
    · by_cases has : as = []
      · subst has
        exact ⟨[], a, by simp [takeThrough, ha], by simp, Or.inr (by simp [takeThrough, ha])⟩
      · obtain ⟨init, last, h1, h2, h3⟩ := ih has
        refine ⟨a :: init, last, by simp [takeThrough, ha, h1], ?_, ?_⟩
        · intro x hx
          rcases List.mem_cons.1 hx with rfl | hx
          · simpa using ha
          · exact h2 x hx
        · rcases h3 with h3 | h3
          · exact Or.inl h3
          · exact Or.inr (by simp [takeThrough, ha, h3])

/-- The ladder has between two and five rungs and ends with the empty filter. -/
theorem ladder_shape (city keyword expHH : String) :
    2 ≤ (ladder city keyword expHH).length ∧ (ladder city keyword expHH).length ≤ 5
      ∧ ∃ init, ladder city keyword expHH = init ++ [("", "", "")] := by
  refine ⟨?_, ?_, ⟨_, rfl⟩⟩ <;>
    by_cases hc : city = "" <;> by_cases hk : keyword = "" <;> by_cases he : expHH = "" <;>
    simp [ladder, hc, hk, he]

/-- Without a keyword the ladder is the one with attempt 4 removed. -/
theorem ladder_without_keyword (city expHH : String) :
    ladder city "" expHH = ladderWithoutKeyword city expHH := by
  simp [ladder, ladderWithoutKeyword]

/-- `trySearch` cannot tell a failing query from one that returns no rows. -/
theorem trySearch_healed (db : DB) (city keyword expHH : String) (offset limit : Int) :
    trySearch (healed db) city keyword expHH offset limit
      = trySearch db city keyword expHH offset limit := by
  cases h : db (sprintfQuery (buildWhere city keyword expHH).1 limit offset)
      (buildWhere city keyword expHH).2 <;> simp [trySearch, healed, h, scanRows]

/-- The cascade cannot tell a failing query from one that returns no rows. -/
theorem cascade_healed (db : DB) (city keyword expHH : String) (offset limit : Int) :
    cascade (healed db) city keyword expHH offset limit
      = cascade db city keyword expHH offset limit := by
  simp only [cascade, attempt2, attempt3, attempt4, attempt5, Cascade.search, Cascade.full,
    trySearch_healed]

/-- For a request with a query text the handler runs the cascade on the parsed
filters with the window derived from the page parameter and answers with its
results. -/
theorem searchHandler_eq_cascade (db : DB) (synonyms : Synonyms) (query pageStr : String)
    (hq : query ≠ "") :
    (searchHandler db synonyms query pageStr).calls
        = (cascade db (parseQuery synonyms query).1 (parseQuery synonyms query).2.1
            (parseQuery synonyms query).2.2 (pageOffset pageStr) 10).calls
      ∧ (searchHandler db synonyms query pageStr).response
        = Response.ok (cascade db (parseQuery synonyms query).1 (parseQuery synonyms query).2.1
            (parseQuery synonyms query).2.2 (pageOffset pageStr) 10).results := by
  simp [searchHandler, hq]

/-- The cascade makes at least one attempt. -/
theorem cascade_calls_pos (db : DB) (city keyword expHH : String)
    (offset limit : Int) : 1 ≤ (cascade db city keyword expHH offset limit).calls.length := by
  by_cases hc : city = "" <;> by_cases hk : keyword = "" <;> by_cases he : expHH = "" <;>
    simp only [cascade, attempt2, attempt3, attempt4, attempt5, Cascade.search, Cascade.full,
      hc, hk, he, ne_eq,
      not_true_eq_false, not_false_eq_true, if_true, if_false, List.nil_append,
      List.append_nil, List.cons_append, List.singleton_append] <;>
    split_ifs <;> simp

/-! ## Claims on the cascade -/

/-- C1: the filter triples that `searchHandler` passes to `trySearch` are the
ladder of the specification cut right after the first attempt whose result has
exactly ten elements (the whole ladder when there is none); they form a prefix
of the ladder, between one and five attempts are made, and with an empty
keyword the attempts form a prefix of the ladder without attempt 4, at most
four of them.  The last part states the same for the handler itself, which
makes no attempt when the query text is missing. -/
theorem searchHandler_attempts_follow_ladder (db : DB) (synonyms : Synonyms)
    (city keyword expHH query pageStr : String) (offset : Int) :
    (cascade db city keyword expHH offset 10).calls.map Call.filters
        = takeThrough (fun f => decide ((storeResult db offset 10 f).length = 10))
            (ladder city keyword expHH)
      ∧ (cascade db city keyword expHH offset 10).calls.map Call.filters
          <+: ladder city keyword expHH
      ∧ 1 ≤ (cascade db city keyword expHH offset 10).calls.length
      ∧ (cascade db city keyword expHH offset 10).calls.length ≤ 5
      ∧ (cascade db city "" expHH offset 10).calls.map Call.filters
          <+: ladderWithoutKeyword city expHH
      ∧ (cascade db city "" expHH offset 10).calls.length ≤ 4
      ∧ (searchHandler db synonyms query pageStr).calls.map Call.filters
          = if query = "" then []
            else takeThrough
              (fun f => decide ((storeResult db (pageOffset pageStr) 10 f).length = 10))
              (ladder (parseQuery synonyms query).1 (parseQuery synonyms query).2.1
                (parseQuery synonyms query).2.2) := by
  have hstop : ∀ off : Int, fullPage db off 10
      = fun f => decide ((storeResult db off 10 f).length = 10) := by
    intro off
    funext f
    rw [Bool.eq_iff_iff, fullPage_ten]
    simp
  have hlen : ∀ k : String, (cascade db city k expHH offset 10).calls.length
      = (takeThrough (fullPage db offset 10) (ladder city k expHH)).length := by
    intro k
    rw [← cascade_calls_eq, List.length_map]
  have hne : ladder city keyword expHH ≠ [] := by
    intro h
    have := (ladder_shape city keyword expHH).1
    rw [h] at this
    simp at this
  refine ⟨?_, ?_, ?_, ?_, ?_, ?_, ?_⟩
  · rw [cascade_calls_eq, hstop]
  · rw [cascade_calls_eq]
    exact takeThrough_initial _ _
  · obtain ⟨init, last, h, -, -⟩ := takeThrough_shape (fullPage db offset 10) _ hne
    rw [hlen, h]
    simp
  · rw [hlen]
    exact le_trans (takeThrough_initial _ _).length_le (ladder_shape city keyword expHH).2.1
  · rw [cascade_calls_eq, ladder_without_keyword]
    exact takeThrough_initial _ _
  · rw [hlen, ladder_without_keyword]
    refine le_trans (takeThrough_initial _ _).length_le ?_
    by_cases hc : city = "" <;> by_cases he : expHH = "" <;>
      simp [ladderWithoutKeyword, hc, he]
  · by_cases hq : query = ""
    · simp [searchHandler, hq]
    · rw [(searchHandler_eq_cascade db synonyms query pageStr hq).1, cascade_calls_eq, hstop,
        if_neg hq]

/-- C2: the list `searchHandler` responds with is the answer to the last
attempt it made; no attempt before the last returned exactly ten elements; and
either the last attempt returned exactly ten elements (so it is the first
executed attempt that did), or every rung of the ladder was executed and the
last attempt is attempt 5, the query without filters.  The final part states
that the handler responds with that list whenever the query text is present. -/
theorem searchHandler_responds_first_full_or_last (db : DB) (synonyms : Synonyms)
    (city keyword expHH query pageStr : String) (offset : Int) :
    (∃ init last,
        (cascade db city keyword expHH offset 10).calls.map Call.filters = init ++ [last]
          ∧ (cascade db city keyword expHH offset 10).results = storeResult db offset 10 last
          ∧ (∀ f ∈ init, (storeResult db offset 10 f).length ≠ 10)
          ∧ ((storeResult db offset 10 last).length = 10
              ∨ (last = ("", "", "") ∧ init ++ [last] = ladder city keyword expHH)))
      ∧ (searchHandler db synonyms query pageStr).response
          = if query = "" then Response.error 400 "missing 'q' param"
            else Response.ok
              (cascade db (parseQuery synonyms query).1 (parseQuery synonyms query).2.1
                (parseQuery synonyms query).2.2 (pageOffset pageStr) 10).results := by
  have hne : ladder city keyword expHH ≠ [] := by
    intro h
    have := (ladder_shape city keyword expHH).1
    rw [h] at this
    simp at this
  constructor
  · obtain ⟨init, last, h1, h2, h3⟩ := takeThrough_shape (fullPage db offset 10) _ hne
    rw [← cascade_calls_eq] at h1 h3
    refine ⟨init, last, h1, ?_, ?_, ?_⟩
    · have := (cascade_results_last db city keyword expHH offset 10).2
      rw [h1] at this
      simpa using this
    · intro f hf hten
      have := h2 f hf
      rw [← fullPage_ten] at hten
      rw [hten] at this
      exact Bool.noConfusion this
    · rcases h3 with h3 | h3
      · exact Or.inl ((fullPage_ten db offset last).1 h3)
      · right
        obtain ⟨init', hl⟩ := (ladder_shape city keyword expHH).2.2
        rw [h1] at h3
        refine ⟨?_, h3⟩
        rw [hl] at h3
        exact (List.append_inj' h3 rfl).2 |> List.singleton_inj.1
  · by_cases hq : query = ""
    · simp [searchHandler, hq]
    · rw [(searchHandler_eq_cascade db synonyms query pageStr hq).2, if_neg hq]

/-- C9: a failing query makes `trySearch` return no results; `trySearch`, the
cascade and the handler behave against a store exactly as against the store in
which every failing query succeeds with zero rows (same attempts, same list);
and the handler's response is the client error for a missing query text or
else the list of the cascade, never an error of the store. -/
theorem store_failure_as_zero_results (db : DB) (synonyms : Synonyms)
    (city keyword expHH query pageStr : String) (offset limit : Int) :
    (db (sprintfQuery (buildWhere city keyword expHH).1 limit offset)
          (buildWhere city keyword expHH).2 = none →
        (trySearch db city keyword expHH offset limit).1 = [])
      ∧ trySearch db city keyword expHH offset limit
          = trySearch (healed db) city keyword expHH offset limit
      ∧ (cascade db city keyword expHH offset limit).calls
          = (cascade (healed db) city keyword expHH offset limit).calls
      ∧ (cascade db city keyword expHH offset limit).results
          = (cascade (healed db) city keyword expHH offset limit).results
      ∧ (searchHandler db synonyms query pageStr).calls
          = (searchHandler (healed db) synonyms query pageStr).calls
      ∧ (searchHandler db synonyms query pageStr).response
          = (searchHandler (healed db) synonyms query pageStr).response
      ∧ (searchHandler db synonyms query pageStr).response
          = if query = "" then Response.error 400 "missing 'q' param"
            else Response.ok
              (cascade db (parseQuery synonyms query).1 (parseQuery synonyms query).2.1
                (parseQuery synonyms query).2.2 (pageOffset pageStr) 10).results := by
  refine ⟨?_, (trySearch_healed db city keyword expHH offset limit).symm, ?_, ?_, ?_, ?_, ?_⟩
  · intro h
    simp [trySearch, h]
  · rw [cascade_healed]
  · rw [cascade_healed]
  · simp only [searchHandler, cascade_healed]
  · simp only [searchHandler, cascade_healed]
  · by_cases hq : query = ""
    · simp [searchHandler, hq]
    · rw [(searchHandler_eq_cascade db synonyms query pageStr hq).2, if_neg hq]

/-- Witness for C9: against a store whose every query fails, the first attempt
for the filters `("Минск", "java", "")` yields no results. -/
theorem store_failure_as_zero_results_witness :
    (trySearch (fun _ _ => none) "Минск" "java" "" 0 10).1 = [] :=
  (store_failure_as_zero_results (fun _ _ => none) [] "Минск" "java" "" "java" "0" 0 10).1 rfl

/-! ## The pagination window -/

/-- When ten times the parsed page fits the 64-bit `int`, the offset is the
product. -/
theorem pageOffset_of_fits (pageStr : String) (p : Int) (h : Atoi pageStr = some p)
    (h0 : 0 ≤ p) (hfit : 10 * p < 2 ^ 63) : pageOffset pageStr = 10 * p := by
  have hne : pageStr ≠ "" := by
    intro he
    rw [he] at h
    have hnone : Atoi "" = none := by decide
    rw [hnone] at h
    exact Option.noConfusion h
  simp only [pageOffset, parsePage, hne, ne_eq, not_false_eq_true, if_true, h, ge_iff_le, h0,
    wrapInt64]
  norm_num at hfit ⊢
  omega

/-- A page parameter that is missing, does not parse, or parses to a negative
number gives offset 0. -/
theorem pageOffset_default (pageStr : String)
    (h : pageStr = "" ∨ Atoi pageStr = none ∨ ∃ p, Atoi pageStr = some p ∧ p < 0) :
    pageOffset pageStr = 0 := by
  rcases h with h | h | ⟨p, h, hp⟩
  · subst h
    decide
  · by_cases hne : pageStr = "" <;> simp [pageOffset, parsePage, hne, h, wrapInt64]
  · have hp' : ¬ 0 ≤ p := not_le.2 hp
    by_cases hne : pageStr = "" <;> simp [pageOffset, parsePage, hne, h, hp', wrapInt64]

/-- C10 fails on the code for large pages: the parameter
`page=922337203685477581` parses to a non-negative `int`, ten times it exceeds
the largest `int`, and every `trySearch` call of the request (there is at least
one) receives the wrapped, negative offset `-9223372036854775806` instead of
the product `9223372036854775810`; the limit is 10. -/
theorem page_offset_wraps_around (db : DB) (synonyms : Synonyms) :
    Atoi "922337203685477581" = some 922337203685477581
      ∧ parsePage "922337203685477581" = 922337203685477581
      ∧ pageOffset "922337203685477581" = -9223372036854775806
      ∧ (searchHandler db synonyms "java" "922337203685477581").calls ≠ []
      ∧ ∀ c ∈ (searchHandler db synonyms "java" "922337203685477581").calls,
          c.offset = -9223372036854775806 ∧ c.limit = 10
            ∧ c.offset ≠ 10 * 922337203685477581 := by
  have hq : ("java" : String) ≠ "" := by decide
  have hoff : pageOffset "922337203685477581" = -9223372036854775806 := by decide
  refine ⟨by decide, by decide, hoff, ?_, ?_⟩
  · rw [(searchHandler_eq_cascade db synonyms "java" "922337203685477581" hq).1]
    intro h
    have h1 := cascade_calls_pos db (parseQuery synonyms "java").1
      (parseQuery synonyms "java").2.1 (parseQuery synonyms "java").2.2
      (pageOffset "922337203685477581") 10
    rw [h] at h1
    simp at h1
  · rw [(searchHandler_eq_cascade db synonyms "java" "922337203685477581" hq).1]
    intro c hc
    have := cascade_calls_window db _ _ _ _ _ c hc
    rw [hoff] at this
    refine ⟨this.1, this.2, ?_⟩
    rw [this.1]
    decide

/-! ## Query interpretation -/

/-- C3 fails on the code: on the text of the specification's example
`parseQuery` finds the keyword but neither the city nor the experience, since
`\b` needs an ASCII word rune on one side and the Cyrillic words `Москве` and
`года` have none next to them. -/
theorem parseQuery_spec_example :
    parseQuery [("python", ["питон", "пайтон", "python"])]
        "python разработчик в Москве с опытом 3 года" = ("", "python", "")
      ∧ cityRe.FindString "python разработчик в Москве с опытом 3 года" = none
      ∧ cityRe.FindString "Москве" = none
      ∧ normalizeExperience "python разработчик в Москве с опытом 3 года" = ""
      ∧ normalizeExperience "3 года" = "" := by
  decide

/-- The patterns do match once ASCII word runes stand next to the Cyrillic
words, and on ASCII triggers: the expected filters of the example are what
`parseQuery` computes there. -/
theorem parseQuery_ascii_neighbours :
    parseQuery [("python", ["питон", "пайтон", "python"])]
        "python разработчик в 1Москве1 с опытом 3 года1" = ("Москва", "python", "От года до трех лет")
      ∧ normalizeExperience "Junior python" = "Нет опыта"
      ∧ normalizeExperience "python 1 - 3" = "От года до трех лет"
      ∧ normalizeExperience "Senior" = "От 3 до 6 лет"
      ∧ normalizeExperience "team lead" = "Более 6 лет"
      ∧ cityRe.FindString "_нижний НОВГОРОД_" = some "нижний НОВГОРОД"
      ∧ (parseQuery [] "_нижний НОВГОРОД_").1 = "Нижний Новгород" := by
  decide

/-! ## Keyword lookup -/

/-- The model of `strings.Contains` is the infix relation on rune sequences. -/
theorem strings_Contains_iff_infix (s sub : String) :
    strings_Contains s sub = true ↔ sub.data <:+: s.data := by
  unfold strings_Contains
  generalize s.data = l
  generalize sub.data = m
  induction l with
  | nil => simp [containsRunes, List.isEmpty_iff]
  | cons c l ih =>
    rw [containsRunes, Bool.or_eq_true, ih, List.infix_cons_iff, List.isPrefixOf_iff_prefix]

/-- The inner loop finds a variant exactly when one occurs in `q`. -/
theorem anyVariant_iff (q : String) (variants : List String) :
    anyVariant q variants = true ↔ ∃ v ∈ variants, strings_Contains q v = true := by
  induction variants with
  | nil => simp [anyVariant]
  | cons v vs ih =>
    by_cases h : strings_Contains q v = true
    · simp [anyVariant, h]
    · simp [anyVariant, h, ih]

/-- The outer loop returns the canonical keyword of an entry one of whose
variants occurs in `q`, whenever there is such an entry. -/
theorem firstCanonical_mem (q : String) (syns : Synonyms)
    (h : ∃ e ∈ syns, anyVariant q e.2 = true) :
    ∃ e ∈ syns, e.1 = firstCanonical q syns ∧ anyVariant q e.2 = true := by
  induction syns with
  | nil => simp at h
  | cons e syns ih =>
    obtain ⟨canonical, variants⟩ := e
    by_cases hv : anyVariant q variants = true
    · exact ⟨(canonical, variants), List.mem_cons_self _ _, by simp [firstCanonical, hv], hv⟩
    · have h' : ∃ e ∈ syns, anyVariant q e.2 = true := by
        obtain ⟨e, he, hm⟩ := h
        rcases List.mem_cons.1 he with rfl | he
        · exact absurd hm hv
        · exact ⟨e, he, hm⟩
      obtain ⟨e, he, h1, h2⟩ := ih h'
      exact ⟨e, List.mem_cons_of_mem _ he, by simp [firstCanonical, hv, h1], h2⟩

/-- The outer loop returns the empty string when no entry has a variant
occurring in `q`. -/
theorem firstCanonical_none (q : String) (syns : Synonyms)
    (h : ¬ ∃ e ∈ syns, anyVariant q e.2 = true) : firstCanonical q syns = "" := by
  induction syns with
  | nil => rfl
  | cons e syns ih =>
    obtain ⟨canonical, variants⟩ := e
    have hv : ¬ anyVariant q variants = true := fun hv =>
      h ⟨(canonical, variants), List.mem_cons_self _ _, hv⟩
    have h' : ¬ ∃ e ∈ syns, anyVariant q e.2 = true := fun ⟨e, he, hm⟩ =>
      h ⟨e, List.mem_cons_of_mem _ he, hm⟩
    simp [firstCanonical, hv, ih h']

/-- `extractKeyword` in terms of occurrences in the lower-cased text. -/
theorem extractKeyword_spec (syns : Synonyms) (text : String) :
    ((∃ e ∈ syns, ∃ v ∈ e.2, strings_Contains (strings_ToLower text) v = true) →
        ∃ e ∈ syns, e.1 = extractKeyword text syns
          ∧ ∃ v ∈ e.2, strings_Contains (strings_ToLower text) v = true)
      ∧ ((¬ ∃ e ∈ syns, ∃ v ∈ e.2, strings_Contains (strings_ToLower text) v = true) →
          extractKeyword text syns = "") := by
  constructor
  · rintro ⟨e, he, hv⟩
    obtain ⟨e', he', h1, h2⟩ :=
      firstCanonical_mem (strings_ToLower text) syns ⟨e, he, (anyVariant_iff _ _).2 hv⟩
    exact ⟨e', he', h1, (anyVariant_iff _ _).1 h2⟩
  · intro h
    apply firstCanonical_none
    rintro ⟨e, he, hv⟩
    exact h ⟨e, he, (anyVariant_iff _ _).1 hv⟩

/-- C7, as stated, fails: the trigger phrase `Python` occurs in the text
`python developer` when letter case is ignored, the canonical keyword is
non-empty, and yet `extractKeyword` returns the empty string, since only the
text is lower-cased. -/
theorem extractKeyword_case_insensitive_counterexample :
    (∀ e ∈ ([("python", ["Python"])] : Synonyms), e.1 ≠ "")
      ∧ occursIgnoringCase "Python" "python developer" = true
      ∧ strings_Contains (strings_ToLower "python developer") "Python" = false
      ∧ extractKeyword "python developer" [("python", ["Python"])] = "" := by
  decide

/-- C7, amended: the lookup lower-cases the text and searches it for the
trigger phrases as they are written.  For a dictionary with non-empty
canonical keywords, in any iteration order: when some trigger phrase occurs in
the lower-cased text, `extractKeyword` returns a non-empty canonical keyword of
an entry with such a phrase; it returns the empty string exactly when no
trigger phrase occurs in the lower-cased text.  When every trigger phrase is
written in lower case, occurring in the lower-cased text is occurring with
letter case ignored, and the lookup is case-insensitive as claimed. -/
theorem extractKeyword_lowercased_lookup (syns : Synonyms) (text : String)
    (hcanon : ∀ e ∈ syns, e.1 ≠ "") :
    ((∃ e ∈ syns, ∃ v ∈ e.2, strings_Contains (strings_ToLower text) v = true) →
        extractKeyword text syns ≠ ""
          ∧ ∃ e ∈ syns, e.1 = extractKeyword text syns
              ∧ ∃ v ∈ e.2, strings_Contains (strings_ToLower text) v = true)
      ∧ (extractKeyword text syns = "" ↔
          ¬ ∃ e ∈ syns, ∃ v ∈ e.2, strings_Contains (strings_ToLower text) v = true)
      ∧ ((∀ e ∈ syns, ∀ v ∈ e.2, strings_ToLower v = v) →
          ((∃ e ∈ syns, ∃ v ∈ e.2, occursIgnoringCase v text = true) →
              extractKeyword text syns ≠ ""
                ∧ ∃ e ∈ syns, e.1 = extractKeyword text syns
                    ∧ ∃ v ∈ e.2, occursIgnoringCase v text = true)
            ∧ (extractKeyword text syns = "" ↔
                ¬ ∃ e ∈ syns, ∃ v ∈ e.2, occursIgnoringCase v text = true)) := by
  have hpos : (∃ e ∈ syns, ∃ v ∈ e.2, strings_Contains (strings_ToLower text) v = true) →
      extractKeyword text syns ≠ ""
        ∧ ∃ e ∈ syns, e.1 = extractKeyword text syns
            ∧ ∃ v ∈ e.2, strings_Contains (strings_ToLower text) v = true := by
    intro h
    obtain ⟨e, he, h1, h2⟩ := (extractKeyword_spec syns text).1 h
    exact ⟨fun hk => hcanon e he (h1.trans hk), e, he, h1, h2⟩
  have hiff : extractKeyword text syns = "" ↔
      ¬ ∃ e ∈ syns, ∃ v ∈ e.2, strings_Contains (strings_ToLower text) v = true :=
    ⟨fun hk h => (hpos h).1 hk, (extractKeyword_spec syns text).2⟩
  refine ⟨hpos, hiff, ?_⟩
  intro hlow
  have hocc : (∃ e ∈ syns, ∃ v ∈ e.2, occursIgnoringCase v text = true) ↔
      ∃ e ∈ syns, ∃ v ∈ e.2, strings_Contains (strings_ToLower text) v = true := by
    constructor
    · rintro ⟨e, he, v, hv, h⟩
      refine ⟨e, he, v, hv, ?_⟩
      rw [occursIgnoringCase, hlow e he v hv] at h
      exact h
    · rintro ⟨e, he, v, hv, h⟩
      refine ⟨e, he, v, hv, ?_⟩
      rw [occursIgnoringCase, hlow e he v hv]
      exact h
  constructor
  · intro h
    obtain ⟨hne, e, he, h1, v, hv, h2⟩ := hpos (hocc.1 h)
    refine ⟨hne, e, he, h1, v, hv, ?_⟩
    rw [occursIgnoringCase, hlow e he v hv]
    exact h2
  · rw [hiff, hocc]

/-- Witness for C7: the dictionary of the specification's example and a text
in mixed case. -/
theorem extractKeyword_lowercased_lookup_witness :
    (∀ e ∈ ([("python", ["питон", "пайтон", "python"])] : Synonyms), e.1 ≠ "")
      ∧ extractKeyword "Senior PYTHON Developer" [("python", ["питон", "пайтон", "python"])]
          ≠ "" :=
  ⟨by decide,
    ((extractKeyword_lowercased_lookup [("python", ["питон", "пайтон", "python"])]
        "Senior PYTHON Developer" (by decide)).1
      ⟨("python", ["питон", "пайтон", "python"]), by simp, "python", by simp, by decide⟩).1⟩

/-- C8 fails on the code: one and the same dictionary with the two entries
`python` and `java`, presented in its two possible iteration orders, gives two
different keywords for the text `java python`, and so two different parsed
filter triples for the same request. -/
theorem extractKeyword_depends_on_iteration_order :
    List.Perm ([("python", ["python"]), ("java", ["java"])] : Synonyms)
        [("java", ["java"]), ("python", ["python"])]
      ∧ Synonyms.WellFormed [("python", ["python"]), ("java", ["java"])]
      ∧ extractKeyword "java python" [("python", ["python"]), ("java", ["java"])] = "python"
      ∧ extractKeyword "java python" [("java", ["java"]), ("python", ["python"])] = "java"
      ∧ parseQuery [("python", ["python"]), ("java", ["java"])] "java python"
          ≠ parseQuery [("java", ["java"]), ("python", ["python"])] "java python" := by
  refine ⟨List.Perm.swap _ _ _, by decide, by decide, by decide, by decide⟩

end SearchService




